import Mathlib

/-!
Verification of the clustering and classification pipeline of the
`discredit` repository (`backend/analysis/clusterer.py` and the clustering
operations of `backend/storage/sqlite_db.py`).

Embeddings are modelled as lists of real-number rows.  The third-party
numerical routines (`hdbscan.HDBSCAN.fit_predict`, `sklearn` KMeans and the
quality metrics, `umap.UMAP`) are not part of the repository source; they
enter the model either as abstract function parameters, or — where a claim
is decided by their contract — as definitions modelled from the spec and
marked as such in their doc comments.  Everything else is translated
directly from the Python source.
-/

set_option maxHeartbeats 1000000

namespace Discredit

/-! ### Label accounting (`clusterer.py`, `cluster_hdbscan` lines 164-202) -/

/-- `n_clusters = len(set(labels)) - (1 if -1 in labels else 0)`
(`clusterer.py` line 166). -/
def nClustersOfLabels (labels : List Int) : Nat :=
  labels.dedup.length - (if (-1 : Int) ∈ labels then 1 else 0)

/-- `labels[labels != -1]`: the non-noise entries of the label vector. -/
def nonNoiseLabels (labels : List Int) : List Int :=
  labels.filter (fun l => decide (l ≠ -1))

/-- `n_noise = np.sum(labels == -1)` (`clusterer.py` line 167). -/
def nNoiseOfLabels (labels : List Int) : Nat :=
  labels.count (-1)

/-- `dict(zip(*np.unique(base, return_counts=True)))`: one `(label, count)`
entry per distinct label of `base` (`clusterer.py` lines 201-202, 280-281). -/
def clusterSizesOf (base : List Int) : List (Int × Nat) :=
  base.dedup.map (fun c => (c, base.count c))

/-- Total of the reported cluster sizes. -/
def sumSizes (sizes : List (Int × Nat)) : Nat :=
  (sizes.map Prod.snd).sum

/-! ### Vector normalization (`sklearn.preprocessing.normalize(X, norm='l2')`,
used at `clusterer.py` lines 151 and 228) -/

/-- Sum of squared entries of a row. -/
noncomputable def sumSq (r : List ℝ) : ℝ :=
  (r.map (fun x => x ^ 2)).sum

/-- L2 norm of a row. -/
noncomputable def rowNorm (r : List ℝ) : ℝ :=
  Real.sqrt (sumSq r)

/-- sklearn replaces a zero norm by 1 before dividing, so zero rows pass
through unchanged. -/
noncomputable def safeNorm (r : List ℝ) : ℝ :=
  if rowNorm r = 0 then 1 else rowNorm r

/-- One row of `normalize(X, norm='l2')`. -/
noncomputable def l2normalizeRow (r : List ℝ) : List ℝ :=
  r.map (fun x => x / safeNorm r)

/-- `normalize(X, norm='l2')`: row-wise L2 normalization. -/
noncomputable def l2normalize (X : List (List ℝ)) : List (List ℝ) :=
  X.map l2normalizeRow

/-! ### Clustering results -/

/-- The result dictionary built by `cluster_hdbscan` / `cluster_umap_hdbscan`.
The three quality metrics are set under a single guard, hence one `Option`
triple `(silhouette, calinski_harabasz, davies_bouldin)`. -/
structure ClusterResult where
  labels : List Int
  n_clusters : Nat
  n_noise : Nat
  n_samples : Nat
  metrics : Option (ℝ × ℝ × ℝ)
  cluster_sizes : List (Int × Nat)

/-- The result dictionary built by `cluster_kmeans`; its quality metrics are
unconditional and it also reports the fitted inertia. -/
structure KMeansResult where
  labels : List Int
  n_clusters : Nat
  n_noise : Nat
  n_samples : Nat
  inertia : ℝ
  silhouette : ℝ
  calinski : ℝ
  davies : ℝ
  cluster_sizes : List (Int × Nat)

/-- `embeddings[mask]` where `mask = labels != -1`: the rows whose label is
not noise, in order. -/
def maskRows (X : List (List ℝ)) (labels : List Int) : List (List ℝ) :=
  ((X.zip labels).filter (fun p => decide (p.2 ≠ -1))).map Prod.fst

/-- Modelled from the spec: the repository delegates density-based clustering
to the external `hdbscan` library (`clusterer.py` lines 154-162), whose code
is not in the repository.  The spec fixes the contract used by the claims:
on fewer than `min_cluster_size` points every point is labelled `-1`.
Behaviour on at least `min_cluster_size` points is kept abstract in the
parameter `bigFit`. -/
def hdbscanFitPredict (bigFit : List (List ℝ) → List Int)
    (min_cluster_size : Nat) (X : List (List ℝ)) : List Int :=
  if X.length < min_cluster_size then List.replicate X.length (-1) else bigFit X

/-- `MessageClusterer.cluster_hdbscan` (`clusterer.py` lines 129-208):
normalize, fit, then assemble counts, guarded quality metrics and the
cluster-size distribution.  `silF`, `chF`, `dbF` stand for the external
sklearn metric functions (`silF` receives the metric name and the sample
size cap `min(10000, np.sum(mask))`). -/
noncomputable def cluster_hdbscan
    (bigFit : Nat → Nat → List (List ℝ) → List Int)
    (silF : String → Nat → List (List ℝ) → List Int → ℝ)
    (chF dbF : List (List ℝ) → List Int → ℝ)
    (embeddings : List (List ℝ))
    (min_cluster_size min_samples : Nat) : ClusterResult :=
  let Xn := l2normalize embeddings
  let labels := hdbscanFitPredict (bigFit min_cluster_size min_samples) min_cluster_size Xn
  { labels := labels
    n_clusters := nClustersOfLabels labels
    n_noise := nNoiseOfLabels labels
    n_samples := labels.length
    metrics :=
      if nClustersOfLabels labels > 1 ∧ (nonNoiseLabels labels).length > 0 then
        some (silF "euclidean" (min 10000 (nonNoiseLabels labels).length)
                (maskRows Xn labels) (nonNoiseLabels labels),
              chF (maskRows Xn labels) (nonNoiseLabels labels),
              dbF (maskRows Xn labels) (nonNoiseLabels labels))
      else none
    cluster_sizes := clusterSizesOf (nonNoiseLabels labels) }

/-- `MessageClusterer.cluster_umap_hdbscan` (`clusterer.py` lines 289-377):
reduce with UMAP (external; abstract parameter `reducer`, seeded with 42 in
the source), fit HDBSCAN on the reduced rows, then assemble the same result
shape as `cluster_hdbscan`.  The input is NOT normalized on this path. -/
noncomputable def cluster_umap_hdbscan
    (reducer : Nat → List (List ℝ) → List (List ℝ))
    (bigFit : Nat → Nat → List (List ℝ) → List Int)
    (silF : String → Nat → List (List ℝ) → List Int → ℝ)
    (chF dbF : List (List ℝ) → List Int → ℝ)
    (embeddings : List (List ℝ))
    (n_components min_cluster_size min_samples : Nat) : ClusterResult :=
  let Xr := reducer n_components embeddings
  let labels := hdbscanFitPredict (bigFit min_cluster_size min_samples) min_cluster_size Xr
  { labels := labels
    n_clusters := nClustersOfLabels labels
    n_noise := nNoiseOfLabels labels
    n_samples := labels.length
    metrics :=
      if nClustersOfLabels labels > 1 ∧ (nonNoiseLabels labels).length > 0 then
        some (silF "euclidean" (min 10000 (nonNoiseLabels labels).length)
                (maskRows Xr labels) (nonNoiseLabels labels),
              chF (maskRows Xr labels) (nonNoiseLabels labels),
              dbF (maskRows Xr labels) (nonNoiseLabels labels))
      else none
    cluster_sizes := clusterSizesOf (nonNoiseLabels labels) }

/-- `MessageClusterer.cluster_kmeans` (`clusterer.py` lines 210-287).
`kmFit k rs ni X` stands for `KMeans(n_clusters=k, random_state=rs,
n_init=ni).fit_predict(X)` together with the fitted `inertia_`;
`mbFit k rs bs ni X` stands for the `MiniBatchKMeans` variant with
`batch_size=bs`.  Both are deterministic functions of their arguments; the
source always passes `random_state=42` and `n_init=10`. -/
noncomputable def cluster_kmeans
    (kmFit : Nat → Nat → Nat → List (List ℝ) → List Int × ℝ)
    (mbFit : Nat → Nat → Nat → Nat → List (List ℝ) → List Int × ℝ)
    (silF : String → Nat → List (List ℝ) → List Int → ℝ)
    (chF dbF : List (List ℝ) → List Int → ℝ)
    (embeddings : List (List ℝ))
    (k : Nat) (use_minibatch : Bool) : KMeansResult :=
  let Xn := l2normalize embeddings
  let fitted :=
    if use_minibatch = true ∧ Xn.length > 10000 then mbFit k 42 1000 10 Xn
    else kmFit k 42 10 Xn
  { labels := fitted.1
    n_clusters := k
    n_noise := 0
    n_samples := fitted.1.length
    inertia := fitted.2
    silhouette := silF "cosine" (min 10000 Xn.length) Xn fitted.1
    calinski := chF Xn fitted.1
    davies := dbF Xn fitted.1
    cluster_sizes := clusterSizesOf fitted.1 }

/-! ### Helper lemmas about label accounting -/

theorem toFinset_dedup_eq (L : List Int) : L.dedup.toFinset = L.toFinset := by
  ext a
  simp [List.mem_toFinset, List.mem_dedup]

theorem sum_clusterSizes (L : List Int) : sumSizes (clusterSizesOf L) = L.length := by
  unfold sumSizes clusterSizesOf
  rw [List.map_map]
  have h1 : (Prod.snd ∘ fun c => (c, L.count c)) = fun c => L.count c := rfl
  rw [h1]
  rw [← List.sum_toFinset (fun c => L.count c) (List.nodup_dedup L)]
  rw [toFinset_dedup_eq]
  exact List.sum_toFinset_count_eq_length L

theorem count_noise_add_nonNoise (L : List Int) :
    L.count (-1) + (nonNoiseLabels L).length = L.length := by
  induction L with
  | nil => simp [nonNoiseLabels]
  | cons a t ih =>
    by_cases h : a = (-1 : Int)
    · subst h
      have hf : nonNoiseLabels ((-1 : Int) :: t) = nonNoiseLabels t := by
        simp [nonNoiseLabels]
      rw [hf, List.count_cons_self, List.length_cons]
      omega
    · have hf : nonNoiseLabels (a :: t) = a :: nonNoiseLabels t := by
        simp [nonNoiseLabels, h]
      have hc : (a :: t).count (-1) = t.count (-1) := by
        rw [List.count_cons]
        simp [h]
      rw [hf, hc, List.length_cons, List.length_cons]
      omega

/-- Core accounting identity: noise count plus the sum of the per-cluster
sizes taken over the non-noise labels recovers the number of samples. -/
theorem noise_accounting_labels (L : List Int) :
    nNoiseOfLabels L + sumSizes (clusterSizesOf (nonNoiseLabels L)) = L.length := by
  rw [sum_clusterSizes]
  exact count_noise_add_nonNoise L

/-- C2: For every run produced by any of the three clustering operations,
`n_noise + sum(cluster_sizes.values()) == n_samples`. -/
theorem noise_accounting
    (bigFit : Nat → Nat → List (List ℝ) → List Int)
    (reducer : Nat → List (List ℝ) → List (List ℝ))
    (kmFit : Nat → Nat → Nat → List (List ℝ) → List Int × ℝ)
    (mbFit : Nat → Nat → Nat → Nat → List (List ℝ) → List Int × ℝ)
    (silF : String → Nat → List (List ℝ) → List Int → ℝ)
    (chF dbF : List (List ℝ) → List Int → ℝ)
    (embeddings : List (List ℝ))
    (n_components min_cluster_size min_samples k : Nat) (use_minibatch : Bool) :
    (let r := cluster_hdbscan bigFit silF chF dbF embeddings min_cluster_size min_samples
     r.n_noise + sumSizes r.cluster_sizes = r.n_samples) ∧
    (let r := cluster_umap_hdbscan reducer bigFit silF chF dbF embeddings
                n_components min_cluster_size min_samples
     r.n_noise + sumSizes r.cluster_sizes = r.n_samples) ∧
    (let r := cluster_kmeans kmFit mbFit silF chF dbF embeddings k use_minibatch
     r.n_noise + sumSizes r.cluster_sizes = r.n_samples) := by
  refine ⟨?_, ?_, ?_⟩
  · exact noise_accounting_labels _
  · exact noise_accounting_labels _
  · simpa [cluster_kmeans] using sum_clusterSizes _

/-! ### Distinct non-noise labels -/

/-- Spec-side quantity: the number of distinct non-noise cluster labels. -/
def nonNoiseClusterCount (labels : List Int) : Nat :=
  (nonNoiseLabels labels).dedup.length

/-- Spec-side quantity: the number of non-noise points. -/
def nonNoisePointCount (labels : List Int) : Nat :=
  (nonNoiseLabels labels).length

/-- The source's `len(set(labels)) - (1 if -1 in labels else 0)` equals the
number of distinct non-noise labels. -/
theorem nClusters_eq_nonNoiseClusterCount (L : List Int) :
    nClustersOfLabels L = nonNoiseClusterCount L := by
  unfold nClustersOfLabels nonNoiseClusterCount
  have h1 : L.dedup.length = L.toFinset.card := (List.card_toFinset L).symm
  have h2 : (nonNoiseLabels L).dedup.length = (nonNoiseLabels L).toFinset.card :=
    (List.card_toFinset _).symm
  have h3 : (nonNoiseLabels L).toFinset = L.toFinset.filter (fun x => x ≠ (-1 : Int)) := by
    unfold nonNoiseLabels
    rw [List.toFinset_filter]
    ext a
    simp
  have h4 := Finset.filter_card_add_filter_neg_card_eq_card
    (s := L.toFinset) (p := fun x => x ≠ (-1 : Int))
  have h5 : L.toFinset.filter (fun x => ¬x ≠ (-1 : Int))
      = L.toFinset.filter (fun x => x = (-1 : Int)) := by
    ext a
    simp
  have h6 : (L.toFinset.filter (fun x => x = (-1 : Int))).card
      = if (-1 : Int) ∈ L then 1 else 0 := by
    rw [Finset.filter_eq']
    by_cases h : (-1 : Int) ∈ L
    · simp [h, List.mem_toFinset]
    · simp [h, List.mem_toFinset]
  rw [h1, h2, h3]
  rw [h5, h6] at h4
  by_cases h : (-1 : Int) ∈ L <;> simp [h] at h4 ⊢ <;> omega

/-- An all-noise label vector yields zero clusters. -/
theorem nClusters_replicate_noise (n : Nat) :
    nClustersOfLabels (List.replicate n (-1 : Int)) = 0 := by
  cases n with
  | zero => simp [nClustersOfLabels]
  | succ m =>
    unfold nClustersOfLabels
    rw [List.replicate_dedup (Nat.succ_ne_zero m)]
    simp [List.mem_replicate]

theorem l2normalize_length (X : List (List ℝ)) : (l2normalize X).length = X.length := by
  simp [l2normalize]

/-- C3: density-based clustering on `N < min_cluster_size` points returns a
result whose labels are all `-1` with `n_clusters = 0` (and, the embedding
being a total function, no error is raised). -/
theorem below_threshold_safety
    (bigFit : Nat → Nat → List (List ℝ) → List Int)
    (silF : String → Nat → List (List ℝ) → List Int → ℝ)
    (chF dbF : List (List ℝ) → List Int → ℝ)
    (embeddings : List (List ℝ)) (min_cluster_size min_samples : Nat)
    (h : embeddings.length < min_cluster_size) :
    (cluster_hdbscan bigFit silF chF dbF embeddings min_cluster_size min_samples).labels
        = List.replicate embeddings.length (-1) ∧
    (cluster_hdbscan bigFit silF chF dbF embeddings min_cluster_size min_samples).n_clusters
        = 0 := by
  have hlab : hdbscanFitPredict (bigFit min_cluster_size min_samples) min_cluster_size
      (l2normalize embeddings) = List.replicate embeddings.length (-1) := by
    unfold hdbscanFitPredict
    rw [l2normalize_length]
    exact if_pos h
  constructor
  · show hdbscanFitPredict _ _ _ = _
    exact hlab
  · show nClustersOfLabels (hdbscanFitPredict _ _ _) = 0
    rw [hlab]
    exact nClusters_replicate_noise _

/-- Witness for `below_threshold_safety` at a concrete one-point input. -/
theorem below_threshold_safety_witness :
    (cluster_hdbscan (fun _ _ _ => []) (fun _ _ _ _ => 0) (fun _ _ => 0) (fun _ _ => 0)
        [([] : List ℝ)] 2 1).labels = List.replicate 1 (-1) ∧
    (cluster_hdbscan (fun _ _ _ => []) (fun _ _ _ _ => 0) (fun _ _ => 0) (fun _ _ => 0)
        [([] : List ℝ)] 2 1).n_clusters = 0 :=
  below_threshold_safety (fun _ _ _ => []) (fun _ _ _ _ => 0) (fun _ _ => 0) (fun _ _ => 0)
    [([] : List ℝ)] 2 1 (by decide)

/-- The quality-metric guard of both density-based results, characterized by
the spec-side quantities. -/
theorem metrics_guard_iff (L : List Int) :
    (nClustersOfLabels L > 1 ∧ (nonNoiseLabels L).length > 0) ↔
      (2 ≤ nonNoiseClusterCount L ∧ 1 ≤ nonNoisePointCount L) := by
  rw [nClusters_eq_nonNoiseClusterCount]
  unfold nonNoisePointCount
  omega

/-- C5: the three quality metrics are absent exactly when there are fewer
than 2 non-noise clusters or no non-noise points, and otherwise all three
are computed over the non-noise rows and labels only — for both the
density-based and the reduction+density-based operations. -/
theorem quality_metric_precondition
    (bigFit : Nat → Nat → List (List ℝ) → List Int)
    (reducer : Nat → List (List ℝ) → List (List ℝ))
    (silF : String → Nat → List (List ℝ) → List Int → ℝ)
    (chF dbF : List (List ℝ) → List Int → ℝ)
    (embeddings : List (List ℝ)) (n_components min_cluster_size min_samples : Nat) :
    (((cluster_hdbscan bigFit silF chF dbF embeddings min_cluster_size min_samples).metrics
          = none ↔
        (nonNoiseClusterCount
            (cluster_hdbscan bigFit silF chF dbF embeddings
              min_cluster_size min_samples).labels < 2 ∨
          nonNoisePointCount
            (cluster_hdbscan bigFit silF chF dbF embeddings
              min_cluster_size min_samples).labels = 0)) ∧
      (2 ≤ nonNoiseClusterCount
            (cluster_hdbscan bigFit silF chF dbF embeddings
              min_cluster_size min_samples).labels ∧
        1 ≤ nonNoisePointCount
            (cluster_hdbscan bigFit silF chF dbF embeddings
              min_cluster_size min_samples).labels →
        (cluster_hdbscan bigFit silF chF dbF embeddings min_cluster_size min_samples).metrics
          = some (silF "euclidean"
              (min 10000 (nonNoiseLabels
                (cluster_hdbscan bigFit silF chF dbF embeddings
                  min_cluster_size min_samples).labels).length)
              (maskRows (l2normalize embeddings)
                (cluster_hdbscan bigFit silF chF dbF embeddings
                  min_cluster_size min_samples).labels)
              (nonNoiseLabels
                (cluster_hdbscan bigFit silF chF dbF embeddings
                  min_cluster_size min_samples).labels),
            chF (maskRows (l2normalize embeddings)
                (cluster_hdbscan bigFit silF chF dbF embeddings
                  min_cluster_size min_samples).labels)
              (nonNoiseLabels
                (cluster_hdbscan bigFit silF chF dbF embeddings
                  min_cluster_size min_samples).labels),
            dbF (maskRows (l2normalize embeddings)
                (cluster_hdbscan bigFit silF chF dbF embeddings
                  min_cluster_size min_samples).labels)
              (nonNoiseLabels
                (cluster_hdbscan bigFit silF chF dbF embeddings
                  min_cluster_size min_samples).labels)))) ∧
    (((cluster_umap_hdbscan reducer bigFit silF chF dbF embeddings
            n_components min_cluster_size min_samples).metrics = none ↔
        (nonNoiseClusterCount
            (cluster_umap_hdbscan reducer bigFit silF chF dbF embeddings
              n_components min_cluster_size min_samples).labels < 2 ∨
          nonNoisePointCount
            (cluster_umap_hdbscan reducer bigFit silF chF dbF embeddings
              n_components min_cluster_size min_samples).labels = 0)) ∧
      (2 ≤ nonNoiseClusterCount
            (cluster_umap_hdbscan reducer bigFit silF chF dbF embeddings
              n_components min_cluster_size min_samples).labels ∧
        1 ≤ nonNoisePointCount
            (cluster_umap_hdbscan reducer bigFit silF chF dbF embeddings
              n_components min_cluster_size min_samples).labels →
        (cluster_umap_hdbscan reducer bigFit silF chF dbF embeddings
            n_components min_cluster_size min_samples).metrics
          = some (silF "euclidean"
              (min 10000 (nonNoiseLabels
                (cluster_umap_hdbscan reducer bigFit silF chF dbF embeddings
                  n_components min_cluster_size min_samples).labels).length)
              (maskRows (reducer n_components embeddings)
                (cluster_umap_hdbscan reducer bigFit silF chF dbF embeddings
                  n_components min_cluster_size min_samples).labels)
              (nonNoiseLabels
                (cluster_umap_hdbscan reducer bigFit silF chF dbF embeddings
                  n_components min_cluster_size min_samples).labels),
            chF (maskRows (reducer n_components embeddings)
                (cluster_umap_hdbscan reducer bigFit silF chF dbF embeddings
                  n_components min_cluster_size min_samples).labels)
              (nonNoiseLabels
                (cluster_umap_hdbscan reducer bigFit silF chF dbF embeddings
                  n_components min_cluster_size min_samples).labels),
            dbF (maskRows (reducer n_components embeddings)
                (cluster_umap_hdbscan reducer bigFit silF chF dbF embeddings
                  n_components min_cluster_size min_samples).labels)
              (nonNoiseLabels
                (cluster_umap_hdbscan reducer bigFit silF chF dbF embeddings
                  n_components min_cluster_size min_samples).labels)))) := by
  constructor
  · set L := hdbscanFitPredict (bigFit min_cluster_size min_samples) min_cluster_size
      (l2normalize embeddings) with hL
    have hlab : (cluster_hdbscan bigFit silF chF dbF embeddings
        min_cluster_size min_samples).labels = L := rfl
    constructor
    · show (if nClustersOfLabels L > 1 ∧ (nonNoiseLabels L).length > 0 then _ else none)
          = none ↔ _
      rw [hlab]
      by_cases h : nClustersOfLabels L > 1 ∧ (nonNoiseLabels L).length > 0
      · rw [if_pos h]
        rw [metrics_guard_iff] at h
        simp only [reduceCtorEq, false_iff]
        omega
      · rw [if_neg h]
        rw [metrics_guard_iff] at h
        simp only [true_iff]
        omega
    · intro h
      rw [hlab] at h
      show (if nClustersOfLabels L > 1 ∧ (nonNoiseLabels L).length > 0 then _ else none) = _
      rw [if_pos ((metrics_guard_iff L).mpr h), hlab]
  · set L := hdbscanFitPredict (bigFit min_cluster_size min_samples) min_cluster_size
      (reducer n_components embeddings) with hL
    have hlab : (cluster_umap_hdbscan reducer bigFit silF chF dbF embeddings
        n_components min_cluster_size min_samples).labels = L := rfl
    constructor
    · show (if nClustersOfLabels L > 1 ∧ (nonNoiseLabels L).length > 0 then _ else none)
          = none ↔ _
      rw [hlab]
      by_cases h : nClustersOfLabels L > 1 ∧ (nonNoiseLabels L).length > 0
      · rw [if_pos h]
        rw [metrics_guard_iff] at h
        simp only [reduceCtorEq, false_iff]
        omega
      · rw [if_neg h]
        rw [metrics_guard_iff] at h
        simp only [true_iff]
        omega
    · intro h
      rw [hlab] at h
      show (if nClustersOfLabels L > 1 ∧ (nonNoiseLabels L).length > 0 then _ else none) = _
      rw [if_pos ((metrics_guard_iff L).mpr h), hlab]

/-- Witness for `quality_metric_precondition`: a four-point input whose
abstract fit yields two clusters, so all three metrics are present. -/
theorem quality_metric_precondition_witness :
    (cluster_hdbscan (fun _ _ _ => [0, 0, 1, 1]) (fun _ _ _ _ => (0 : ℝ))
        (fun _ _ => 0) (fun _ _ => 0) (List.replicate 4 ([] : List ℝ)) 1 1).metrics
      = some (0, 0, 0) ∧
    (cluster_umap_hdbscan (fun _ _ => List.replicate 4 ([] : List ℝ))
        (fun _ _ _ => [0, 0, 1, 1]) (fun _ _ _ _ => (0 : ℝ))
        (fun _ _ => 0) (fun _ _ => 0) (List.replicate 4 ([] : List ℝ)) 50 1 1).metrics
      = some (0, 0, 0) := by
  constructor
  · exact (quality_metric_precondition (fun _ _ _ => [0, 0, 1, 1]) (fun _ _ => [])
      (fun _ _ _ _ => (0 : ℝ)) (fun _ _ => 0) (fun _ _ => 0)
      (List.replicate 4 ([] : List ℝ)) 50 1 1).1.2 (by decide)
  · exact (quality_metric_precondition (fun _ _ _ => [0, 0, 1, 1])
      (fun _ _ => List.replicate 4 ([] : List ℝ))
      (fun _ _ _ _ => (0 : ℝ)) (fun _ _ => 0) (fun _ _ => 0)
      (List.replicate 4 ([] : List ℝ)) 50 1 1).2.2 (by decide)

/-! ### Cluster assignment store (`storage/sqlite_db.py`) -/

/-- A row of the `messages` table (`sqlite_db.py` lines 66-80); `id` is the
PRIMARY KEY.  Only the columns the clustering claims touch are kept. -/
structure Message where
  id : String
  platform : String
  content : String
  author_id : String
  timestamp : Int
deriving DecidableEq, Repr

/-- A row of the `message_clusters` table (`sqlite_db.py` lines 142-153),
with `UNIQUE(clustering_run_id, message_id)`. -/
structure ClusterRow where
  clustering_run_id : Int
  message_id : String
  cluster_id : Int
  created_at : Int
deriving DecidableEq, Repr

/-- The tables of the store the clustering claims read and write. -/
structure DBState where
  messages : List Message
  message_clusters : List ClusterRow
deriving DecidableEq, Repr

/-- `INSERT OR REPLACE INTO message_clusters`: the `UNIQUE(clustering_run_id,
message_id)` constraint makes the replace drop any row with the same key. -/
def upsertRow (rows : List ClusterRow) (row : ClusterRow) : List ClusterRow :=
  rows.filter (fun r =>
    decide (¬(r.clustering_run_id = row.clustering_run_id ∧
      r.message_id = row.message_id))) ++ [row]

/-- `DiscreditDB.save_cluster_assignments` (`sqlite_db.py` lines 780-813):
length validation, then a batch `INSERT OR REPLACE`.  `now` stands for
`int(datetime.now().timestamp())`. -/
def save_cluster_assignments (db : DBState) (clustering_run_id : Int)
    (message_ids : List String) (cluster_labels : List Int) (now : Int) :
    Except String DBState :=
  if message_ids.length ≠ cluster_labels.length then
    .error "message_ids and cluster_labels must have same length"
  else
    .ok { db with message_clusters :=
      (((message_ids.zip cluster_labels).map
        (fun p => ClusterRow.mk clustering_run_id p.1 p.2 now)).foldl
        upsertRow db.message_clusters) }

/-- State-transformer view of the save: a raised `ValueError` propagates, so
the caller's store is unchanged. -/
def applySave (db : DBState) (clustering_run_id : Int)
    (message_ids : List String) (cluster_labels : List Int) (now : Int) : DBState :=
  match save_cluster_assignments db clustering_run_id message_ids cluster_labels now with
  | .ok db2 => db2
  | .error _ => db

/-- `ORDER BY m.timestamp DESC`. -/
def byTimestampDesc (a b : Message) : Bool :=
  b.timestamp ≤ a.timestamp

/-- The `LIMIT` handling of `get_cluster_messages` (lines 841-842): Python
appends the clause only when `limit` is truthy, i.e. not `None` and nonzero;
SQLite treats a negative `LIMIT` as unbounded. -/
def applyLimit (limit : Option Int) (rows : List Message) : List Message :=
  match limit with
  | none => rows
  | some l => if l = 0 then rows else if l < 0 then rows else rows.take l.toNat

/-- `DiscreditDB.get_cluster_messages` (`sqlite_db.py` lines 815-846): join
`message_clusters` against `messages` on the message id (the `messages`
PRIMARY KEY, hence the single `find?`), filter by run and cluster, order by
message timestamp descending, and apply the optional limit. -/
def get_cluster_messages (db : DBState) (clustering_run_id : Int) (cluster_id : Int)
    (limit : Option Int) : List Message :=
  let joined := (db.message_clusters.filter (fun r =>
      decide (r.clustering_run_id = clustering_run_id ∧ r.cluster_id = cluster_id))).filterMap
    (fun r => db.messages.find? (fun m => decide (m.id = r.message_id)))
  applyLimit limit (joined.mergeSort byTimestampDesc)

/-- The label stored for `(clustering_run_id, message_id)`, if any. -/
def lookupAssignment (rows : List ClusterRow) (run : Int) (mid : String) : Option Int :=
  (rows.find? (fun r =>
    decide (r.clustering_run_id = run ∧ r.message_id = mid))).map ClusterRow.cluster_id

/-- The label paired with `mid` in an id/label list, last pairing winning. -/
def zipLookup (pairs : List (String × Int)) (mid : String) : Option Int :=
  (pairs.reverse.find? (fun p => decide (p.1 = mid))).map Prod.snd

/-! ### Upsert semantics of the assignment store -/

theorem find?_filter_of_imp {α : Type} (l : List α) (p q : α → Bool)
    (h : ∀ x, p x = true → q x = true) :
    (l.filter q).find? p = l.find? p := by
  induction l with
  | nil => rfl
  | cons a t ih =>
    by_cases hq : q a = true
    · rw [List.filter_cons_of_pos hq]
      by_cases hp : p a = true
      · rw [List.find?_cons_of_pos _ hp, List.find?_cons_of_pos _ hp]
      · rw [List.find?_cons_of_neg _ (by simpa using hp),
          List.find?_cons_of_neg _ (by simpa using hp)]
        exact ih
    · have hp : ¬p a = true := fun hpa => hq (h a hpa)
      rw [List.filter_cons_of_neg (by simpa using hq),
        List.find?_cons_of_neg _ (by simpa using hp)]
      exact ih

theorem lookupAssignment_upsertRow (rows : List ClusterRow) (row : ClusterRow)
    (run : Int) (mid : String) :
    lookupAssignment (upsertRow rows row) run mid =
      if row.clustering_run_id = run ∧ row.message_id = mid then some row.cluster_id
      else lookupAssignment rows run mid := by
  unfold lookupAssignment upsertRow
  rw [List.find?_append]
  by_cases hk : row.clustering_run_id = run ∧ row.message_id = mid
  · have h1 : (rows.filter (fun r =>
        decide (¬(r.clustering_run_id = row.clustering_run_id ∧
          r.message_id = row.message_id)))).find?
        (fun r => decide (r.clustering_run_id = run ∧ r.message_id = mid)) = none := by
      rw [List.find?_eq_none]
      intro x hx
      have hq := (List.mem_filter.mp hx).2
      simp only [decide_eq_true_eq] at hq
      simp only [decide_eq_true_eq]
      intro hpx
      exact hq ⟨hpx.1.trans hk.1.symm, hpx.2.trans hk.2.symm⟩
    have h2 : ([row].find?
        (fun r => decide (r.clustering_run_id = run ∧ r.message_id = mid))) = some row := by
      simp [List.find?, hk.1, hk.2]
    rw [h1, h2, if_pos hk]
    rfl
  · have h2 : ([row].find?
        (fun r => decide (r.clustering_run_id = run ∧ r.message_id = mid))) = none := by
      simp only [List.find?]
      have : decide (row.clustering_run_id = run ∧ row.message_id = mid) = false := by
        simpa using hk
      rw [this]
    rw [h2, Option.or_none, if_neg hk]
    rw [find?_filter_of_imp]
    intro x hpx
    simp only [decide_eq_true_eq] at hpx ⊢
    intro hxk
    exact hk ⟨hxk.1.symm.trans hpx.1, hxk.2.symm.trans hpx.2⟩

theorem lookupAssignment_foldl_upsert (newRows : List ClusterRow)
    (rows : List ClusterRow) (run : Int) (mid : String) :
    lookupAssignment (newRows.foldl upsertRow rows) run mid =
      match newRows.reverse.find? (fun r =>
          decide (r.clustering_run_id = run ∧ r.message_id = mid)) with
      | some r => some r.cluster_id
      | none => lookupAssignment rows run mid := by
  induction newRows generalizing rows with
  | nil => simp
  | cons nr rest ih =>
    rw [List.foldl_cons, ih (upsertRow rows nr), List.reverse_cons, List.find?_append]
    cases hfind : rest.reverse.find? (fun r =>
        decide (r.clustering_run_id = run ∧ r.message_id = mid)) with
    | some r => simp
    | none =>
      simp only [Option.none_or]
      rw [lookupAssignment_upsertRow]
      by_cases hk : nr.clustering_run_id = run ∧ nr.message_id = mid
      · have : ([nr].find? (fun r =>
            decide (r.clustering_run_id = run ∧ r.message_id = mid))) = some nr := by
          simp [List.find?, hk.1, hk.2]
        rw [this, if_pos hk]
      · have : ([nr].find? (fun r =>
            decide (r.clustering_run_id = run ∧ r.message_id = mid))) = none := by
          simp only [List.find?]
          have hd : decide (nr.clustering_run_id = run ∧ nr.message_id = mid) = false := by
            simpa using hk
          rw [hd]
        rw [this, if_neg hk]

theorem find?_mapped_rows (pairs : List (String × Int)) (run now run2 : Int) (mid : String) :
    ((pairs.map (fun p => ClusterRow.mk run p.1 p.2 now)).reverse.find?
      (fun r => decide (r.clustering_run_id = run2 ∧ r.message_id = mid)))
    = if run = run2 then
        (pairs.reverse.find? (fun p => decide (p.1 = mid))).map
          (fun p => ClusterRow.mk run p.1 p.2 now)
      else none := by
  rw [← List.map_reverse, List.find?_map]
  by_cases hr : run = run2
  · subst hr
    rw [if_pos rfl]
    have hpred : ((fun r => decide (r.clustering_run_id = run ∧ r.message_id = mid)) ∘
        (fun p : String × Int => ClusterRow.mk run p.1 p.2 now))
        = (fun q : String × Int => decide (q.1 = mid)) := by
      funext q
      simp
    rw [hpred]
  · rw [if_neg hr]
    rw [Option.map_eq_none']
    rw [List.find?_eq_none]
    intro q hq
    simp [hr]

/-- C4: a length mismatch makes `save_cluster_assignments` raise the
validation `ValueError` with the store unchanged; matching lengths perform a
bulk upsert: each pair's last label wins for its `(run, message)` key, keys
not in the list and other runs keep their previous assignment. -/
theorem save_assignments_spec (db : DBState) (run : Int)
    (ids : List String) (labels : List Int) (now : Int) :
    (ids.length ≠ labels.length →
      save_cluster_assignments db run ids labels now =
        .error "message_ids and cluster_labels must have same length" ∧
      applySave db run ids labels now = db) ∧
    (ids.length = labels.length →
      ∃ db2, save_cluster_assignments db run ids labels now = .ok db2 ∧
        db2.messages = db.messages ∧
        (∀ mid lab, zipLookup (ids.zip labels) mid = some lab →
          lookupAssignment db2.message_clusters run mid = some lab) ∧
        (∀ mid, zipLookup (ids.zip labels) mid = none →
          lookupAssignment db2.message_clusters run mid =
            lookupAssignment db.message_clusters run mid) ∧
        (∀ run2 mid, run2 ≠ run →
          lookupAssignment db2.message_clusters run2 mid =
            lookupAssignment db.message_clusters run2 mid)) := by
  constructor
  · intro h
    constructor
    · unfold save_cluster_assignments
      rw [if_pos h]
    · unfold applySave save_cluster_assignments
      rw [if_pos h]
  · intro h
    refine ⟨{ db with message_clusters :=
        (((ids.zip labels).map (fun p => ClusterRow.mk run p.1 p.2 now)).foldl
          upsertRow db.message_clusters) }, ?_, rfl, ?_, ?_, ?_⟩
    · unfold save_cluster_assignments
      rw [if_neg (by omega)]
    · intro mid lab hzl
      show lookupAssignment (((ids.zip labels).map
          (fun p => ClusterRow.mk run p.1 p.2 now)).foldl
          upsertRow db.message_clusters) run mid = some lab
      rw [lookupAssignment_foldl_upsert, find?_mapped_rows]
      rw [if_pos rfl]
      unfold zipLookup at hzl
      rcases Option.map_eq_some'.mp hzl with ⟨q, hq, hq2⟩
      rw [hq]
      simpa using hq2
    · intro mid hzl
      show lookupAssignment (((ids.zip labels).map
          (fun p => ClusterRow.mk run p.1 p.2 now)).foldl
          upsertRow db.message_clusters) run mid =
        lookupAssignment db.message_clusters run mid
      rw [lookupAssignment_foldl_upsert, find?_mapped_rows]
      rw [if_pos rfl]
      unfold zipLookup at hzl
      rw [Option.map_eq_none'.mp hzl]
      rfl
    · intro run2 mid hrun
      show lookupAssignment (((ids.zip labels).map
          (fun p => ClusterRow.mk run p.1 p.2 now)).foldl
          upsertRow db.message_clusters) run2 mid =
        lookupAssignment db.message_clusters run2 mid
      rw [lookupAssignment_foldl_upsert, find?_mapped_rows]
      rw [if_neg (fun hh => hrun hh.symm)]

/-- Witness for `save_assignments_spec`: a mismatched call errors and leaves
the store unchanged; a matched call succeeds with the stored label visible. -/
theorem save_assignments_spec_witness :
    (save_cluster_assignments (DBState.mk [] []) 1 ["a"] [] 0 =
        .error "message_ids and cluster_labels must have same length" ∧
      applySave (DBState.mk [] []) 1 ["a"] [] 0 = DBState.mk [] []) ∧
    (∃ db2, save_cluster_assignments (DBState.mk [] []) 1 ["m"] [7] 0 = .ok db2 ∧
      db2.messages = (DBState.mk [] []).messages ∧
      (∀ mid lab, zipLookup (["m"].zip [7]) mid = some lab →
        lookupAssignment db2.message_clusters 1 mid = some lab) ∧
      (∀ mid, zipLookup (["m"].zip [7]) mid = none →
        lookupAssignment db2.message_clusters 1 mid =
          lookupAssignment (DBState.mk [] []).message_clusters 1 mid) ∧
      (∀ run2 mid, run2 ≠ 1 →
        lookupAssignment db2.message_clusters run2 mid =
          lookupAssignment (DBState.mk [] []).message_clusters run2 mid)) :=
  ⟨(save_assignments_spec (DBState.mk [] []) 1 ["a"] [] 0).1 (by decide),
   (save_assignments_spec (DBState.mk [] []) 1 ["m"] [7] 0).2 (by decide)⟩

/-! ### Round-trip through the store -/

/-- On a fresh run id with pairwise-distinct keys, the batch upsert is a plain
append. -/
theorem foldl_upsert_eq_append (newRows : List ClusterRow) (rows : List ClusterRow)
    (hfresh : ∀ r ∈ rows, ∀ nr ∈ newRows,
      ¬(r.clustering_run_id = nr.clustering_run_id ∧ r.message_id = nr.message_id))
    (hpair : newRows.Pairwise (fun a b =>
      ¬(a.clustering_run_id = b.clustering_run_id ∧ a.message_id = b.message_id))) :
    newRows.foldl upsertRow rows = rows ++ newRows := by
  induction newRows generalizing rows with
  | nil => simp
  | cons nr rest ih =>
    rw [List.foldl_cons]
    have h1 : upsertRow rows nr = rows ++ [nr] := by
      unfold upsertRow
      congr 1
      apply List.filter_eq_self.mpr
      intro r hr
      simp only [decide_eq_true_eq]
      exact hfresh r hr nr (List.mem_cons_self nr rest)
    have hf2 : ∀ r ∈ rows ++ [nr], ∀ nr2 ∈ rest,
        ¬(r.clustering_run_id = nr2.clustering_run_id ∧ r.message_id = nr2.message_id) := by
      intro r hr nr2 hnr2
      rcases List.mem_append.mp hr with hr1 | hr2
      · exact hfresh r hr1 nr2 (List.mem_cons_of_mem nr hnr2)
      · have hrn : r = nr := by simpa using hr2
        subst hrn
        exact (List.pairwise_cons.mp hpair).1 nr2 hnr2
    rw [h1, ih (rows ++ [nr]) hf2 (List.pairwise_cons.mp hpair).2]
    simp

/-- `find?` on the repository's `messages` table (unique `id` PRIMARY KEY)
recovers exactly the member with the sought id. -/
theorem find?_messages_of_mem (msgs : List Message)
    (hnodup : (msgs.map Message.id).Nodup) (m : Message) (hm : m ∈ msgs) :
    msgs.find? (fun mm => decide (mm.id = m.id)) = some m := by
  induction msgs with
  | nil => cases hm
  | cons a t ih =>
    have hnd := hnodup
    rw [List.map_cons, List.nodup_cons] at hnd
    by_cases ha : a.id = m.id
    · rw [List.find?_cons_of_pos _ (by simpa using ha)]
      rcases List.mem_cons.mp hm with hma | hmt
      · rw [hma]
      · exfalso
        apply hnd.1
        rw [ha]
        exact List.mem_map_of_mem Message.id hmt
    · rw [List.find?_cons_of_neg _ (by simpa using ha)]
      apply ih hnd.2
      rcases List.mem_cons.mp hm with hma | hmt
      · exact absurd (congrArg Message.id hma).symm ha
      · exact hmt

/-- C1 (amended): saving assignments for a run id with no prior rows, with
pairwise-distinct message ids, and then querying a cluster label returns
exactly the stored message records whose id was paired with that label, and
no others. -/
theorem assignment_roundtrip
    (db db2 : DBState) (run : Int) (ids : List String) (labels : List Int)
    (now : Int) (c : Int) (m : Message)
    (hids : ids.Nodup)
    (hmsg : (db.messages.map Message.id).Nodup)
    (hfresh : ∀ r ∈ db.message_clusters, r.clustering_run_id ≠ run)
    (hsave : save_cluster_assignments db run ids labels now = Except.ok db2) :
    m ∈ get_cluster_messages db2 run c none ↔
      (m ∈ db.messages ∧ (m.id, c) ∈ ids.zip labels) := by
  have hlen : ids.length = labels.length := by
    by_contra hne
    unfold save_cluster_assignments at hsave
    rw [if_pos hne] at hsave
    exact Except.noConfusion hsave
  have hdb2 : db2 = { db with message_clusters :=
      (((ids.zip labels).map (fun p => ClusterRow.mk run p.1 p.2 now)).foldl
        upsertRow db.message_clusters) } := by
    unfold save_cluster_assignments at hsave
    rw [if_neg (by omega)] at hsave
    injection hsave with hh
    exact hh.symm
  have hpairwise : ((ids.zip labels).map
      (fun p => ClusterRow.mk run p.1 p.2 now)).Pairwise (fun a b =>
        ¬(a.clustering_run_id = b.clustering_run_id ∧ a.message_id = b.message_id)) := by
    rw [List.pairwise_map]
    have hnn : ((ids.zip labels).map Prod.fst).Nodup := by
      rw [List.map_fst_zip ids labels (le_of_eq hlen)]
      exact hids
    have hfst : (ids.zip labels).Pairwise (fun a b => a.1 ≠ b.1) :=
      List.pairwise_map.mp hnn
    exact hfst.imp (fun hab hk => hab hk.2)
  have happend : ((ids.zip labels).map
        (fun p => ClusterRow.mk run p.1 p.2 now)).foldl upsertRow db.message_clusters
      = db.message_clusters ++
        ((ids.zip labels).map (fun p => ClusterRow.mk run p.1 p.2 now)) := by
    apply foldl_upsert_eq_append _ _ _ hpairwise
    intro r hr nr hnr
    have hnrr : nr.clustering_run_id = run := by
      rcases List.mem_map.mp hnr with ⟨q, _, rfl⟩
      rfl
    intro hkey
    exact hfresh r hr (hkey.1.trans hnrr)
  subst hdb2
  show m ∈ applyLimit none _ ↔ _
  unfold applyLimit
  rw [List.mem_mergeSort]
  rw [happend, List.filter_append]
  have hnil : db.message_clusters.filter (fun r =>
      decide (r.clustering_run_id = run ∧ r.cluster_id = c)) = [] := by
    rw [List.filter_eq_nil_iff]
    intro r hr
    simp only [decide_eq_true_eq]
    intro hk
    exact hfresh r hr hk.1
  rw [hnil, List.nil_append, List.mem_filterMap]
  constructor
  · rintro ⟨r, hrf, hfind⟩
    have hrm := List.mem_filter.mp hrf
    rcases List.mem_map.mp hrm.1 with ⟨q, hq, rfl⟩
    have hc : q.2 = c := by
      have h2 := hrm.2
      simp only [decide_eq_true_eq] at h2
      exact h2.2
    have h1 : m ∈ db.messages := List.mem_of_find?_eq_some hfind
    have h2 : m.id = q.1 := by simpa using List.find?_some hfind
    refine ⟨h1, ?_⟩
    have hqeq : q = (m.id, c) := by
      cases q
      simp only [Prod.mk.injEq]
      exact ⟨h2.symm, hc⟩
    rw [← hqeq]
    exact hq
  · rintro ⟨hm, hpair⟩
    refine ⟨ClusterRow.mk run m.id c now, ?_, ?_⟩
    · apply List.mem_filter.mpr
      refine ⟨List.mem_map.mpr ⟨(m.id, c), hpair, rfl⟩, by simp⟩
    · exact find?_messages_of_mem db.messages hmsg m hm

/-- A sample `messages` row used by concrete instantiations. -/
def sampleMessage : Message :=
  ⟨"m1", "discord", "hello", "u1", 10⟩

/-- Witness for `assignment_roundtrip`: one message, one assignment. -/
theorem assignment_roundtrip_witness :
    sampleMessage ∈ get_cluster_messages
        (DBState.mk [sampleMessage] [ClusterRow.mk 1 "m1" 0 5]) 1 0 none ↔
      (sampleMessage ∈ (DBState.mk [sampleMessage] []).messages ∧
        (sampleMessage.id, (0 : Int)) ∈ (["m1"].zip [0])) :=
  assignment_roundtrip (DBState.mk [sampleMessage] [])
    (DBState.mk [sampleMessage] [ClusterRow.mk 1 "m1" 0 5]) 1 ["m1"] [0] 5 0
    sampleMessage (by decide) (by decide) (by decide) rfl

/-- Counterexample to C1 as stated: with a duplicated message id the pair
`("m1", 0)` occurs in the saved list, the record with id `"m1"` is present in
`messages`, yet querying cluster 0 afterwards returns nothing — the later
pairing `("m1", 1)` overwrote it. -/
theorem assignment_roundtrip_counterexample :
    sampleMessage ∉ get_cluster_messages
        (applySave (DBState.mk [sampleMessage] []) 1 ["m1", "m1"] [0, 1] 5) 1 0 none ∧
    (("m1", (0 : Int)) ∈ (["m1", "m1"].zip [0, 1])) ∧
    sampleMessage ∈ (DBState.mk [sampleMessage] []).messages ∧
    sampleMessage.id = "m1" := by
  refine ⟨?_, by decide, by decide, by decide⟩
  unfold get_cluster_messages
  simp only [applyLimit]
  rw [List.mem_mergeSort]
  decide

/-- C10: `limit=0` is falsy in `if limit:`, so no LIMIT clause is emitted —
the query returns all matching messages, exactly as `limit=None`; only a
strictly positive limit truncates the result. -/
theorem limit_zero_unbounded (db : DBState) (run c : Int) :
    get_cluster_messages db run c (some 0) = get_cluster_messages db run c none ∧
    (∀ l : Int, l < 0 →
      get_cluster_messages db run c (some l) = get_cluster_messages db run c none) ∧
    (∀ l : Int, 0 < l →
      get_cluster_messages db run c (some l) =
        (get_cluster_messages db run c none).take l.toNat) := by
  unfold get_cluster_messages
  refine ⟨?_, ?_, ?_⟩
  · simp [applyLimit]
  · intro l hl
    simp only [applyLimit]
    rw [if_neg (by omega), if_pos hl]
  · intro l hl
    simp only [applyLimit]
    rw [if_neg (by omega), if_neg (by omega)]

/-- Witness for `limit_zero_unbounded` on a one-row store. -/
theorem limit_zero_unbounded_witness :
    get_cluster_messages (DBState.mk [sampleMessage] [ClusterRow.mk 1 "m1" 0 5]) 1 0 (some 0)
      = get_cluster_messages (DBState.mk [sampleMessage] [ClusterRow.mk 1 "m1" 0 5]) 1 0 none ∧
    get_cluster_messages (DBState.mk [sampleMessage] [ClusterRow.mk 1 "m1" 0 5]) 1 0 (some (-2))
      = get_cluster_messages (DBState.mk [sampleMessage] [ClusterRow.mk 1 "m1" 0 5]) 1 0 none ∧
    get_cluster_messages (DBState.mk [sampleMessage] [ClusterRow.mk 1 "m1" 0 5]) 1 0 (some 1)
      = (get_cluster_messages (DBState.mk [sampleMessage] [ClusterRow.mk 1 "m1" 0 5])
          1 0 none).take ((1 : Int)).toNat :=
  ⟨(limit_zero_unbounded (DBState.mk [sampleMessage] [ClusterRow.mk 1 "m1" 0 5]) 1 0).1,
   (limit_zero_unbounded (DBState.mk [sampleMessage] [ClusterRow.mk 1 "m1" 0 5]) 1 0).2.1
     (-2) (by decide),
   (limit_zero_unbounded (DBState.mk [sampleMessage] [ClusterRow.mk 1 "m1" 0 5]) 1 0).2.2
     1 (by decide)⟩

/-! ### Pipeline entry (`clusterer.py`, `load_embeddings` lines 81-103 and
`main` lines 599-630) -/

/-- The kinds of Python exception the modelled pipeline can raise.
`valueError` is what the repository's explicit validations raise (e.g.
`save_cluster_assignments`); `indexError` is what `self.embeddings.shape[1]`
raises on an empty array. -/
inductive PyError where
  | indexError : PyError
  | valueError : PyError
deriving DecidableEq, Repr

/-- The contents of the ChromaDB collection as returned by
`collection.get(include=["embeddings", "metadatas"])`. -/
structure VectorStoreData where
  ids : List String
  embeddings : List (List ℝ)

/-- The shape of `np.array(rows)`: `(0,)` for an empty list, `(n, d)` for a
non-empty list of uniform rows (the only inputs the pipeline meets). -/
def arrayShape (rows : List (List ℝ)) : List Nat :=
  match rows with
  | [] => [0]
  | r :: _ => [rows.length, r.length]

/-- `MessageClusterer.load_embeddings` (`clusterer.py` lines 81-103): reads
ids and vectors, then prints `self.embeddings.shape[1]`, which raises
`IndexError` when the shape tuple has no second entry. -/
def load_embeddings (store : VectorStoreData) :
    Except PyError (List (List ℝ) × List String) :=
  match (arrayShape store.embeddings).get? 1 with
  | none => .error .indexError
  | some _ => .ok (store.embeddings, store.ids)

/-- `main` (`clusterer.py` lines 599-630): load the embeddings first; every
store write (clustering, saving) happens strictly afterwards and is folded
into the abstract continuation `rest`.  An error propagates and the store is
left as it was. -/
def main_pipeline (db : DBState) (store : VectorStoreData)
    (rest : List (List ℝ) → List String → DBState → DBState) : Except PyError DBState :=
  match load_embeddings store with
  | .error e => .error e
  | .ok (emb, ids) => .ok (rest emb ids db)

/-- C8 (amended): on an empty embedding source the pipeline fails before any
run record is created — the store is never written — but the failure is the
`IndexError` from reading the embedding dimension, not an explicit
validation error. -/
theorem empty_input_aborts (db : DBState) (store : VectorStoreData)
    (rest : List (List ℝ) → List String → DBState → DBState)
    (h : store.embeddings = []) :
    main_pipeline db store rest = .error .indexError ∧
    (∀ db2, main_pipeline db store rest ≠ .ok db2) := by
  have hload : load_embeddings store = .error .indexError := by
    unfold load_embeddings
    rw [h]
    rfl
  constructor
  · unfold main_pipeline
    rw [hload]
  · intro db2
    unfold main_pipeline
    rw [hload]
    exact fun hc => Except.noConfusion hc

/-- Witness for `empty_input_aborts` at the empty store. -/
theorem empty_input_aborts_witness :
    main_pipeline (DBState.mk [] []) (VectorStoreData.mk [] []) (fun _ _ db => db)
      = .error .indexError ∧
    (∀ db2, main_pipeline (DBState.mk [] []) (VectorStoreData.mk [] [])
      (fun _ _ db => db) ≠ .ok db2) :=
  empty_input_aborts (DBState.mk [] []) (VectorStoreData.mk [] []) (fun _ _ db => db) rfl

/-- Counterexample to C8 as stated: the error the code raises on empty input
is the `IndexError` from `self.embeddings.shape[1]`, not a validation
(`ValueError`) — there is no explicit emptiness check in `load_embeddings`. -/
theorem empty_input_counterexample :
    main_pipeline (DBState.mk [] []) (VectorStoreData.mk [] []) (fun _ _ db => db)
      = .error .indexError ∧
    PyError.indexError ≠ PyError.valueError :=
  ⟨rfl, by decide⟩

/-! ### Centroid-based determinism -/

/-- Points `i` and `j` fall in the same cluster of a label vector. -/
def sameCluster (labels : List Int) (i j : Nat) : Prop :=
  i < labels.length ∧ j < labels.length ∧ labels.get? i = labels.get? j

/-- C6: the source fixes `random_state=42` and `n_init=10`, so the fit is a
deterministic function of the matrix and `k` alone; two invocations with the
same input and `k` produce identical label vectors and hence identical
point-to-point co-membership. -/
theorem kmeans_determinism
    (kmFit : Nat → Nat → Nat → List (List ℝ) → List Int × ℝ)
    (mbFit : Nat → Nat → Nat → Nat → List (List ℝ) → List Int × ℝ)
    (silF : String → Nat → List (List ℝ) → List Int → ℝ)
    (chF dbF : List (List ℝ) → List Int → ℝ)
    (X : List (List ℝ)) (k : Nat) (use_minibatch : Bool) :
    (cluster_kmeans kmFit mbFit silF chF dbF X k use_minibatch).labels
      = (cluster_kmeans kmFit mbFit silF chF dbF X k use_minibatch).labels ∧
    ∀ i j : Nat,
      sameCluster (cluster_kmeans kmFit mbFit silF chF dbF X k use_minibatch).labels i j ↔
        sameCluster (cluster_kmeans kmFit mbFit silF chF dbF X k use_minibatch).labels i j :=
  ⟨rfl, fun _ _ => Iff.rfl⟩

/-! ### Normalization contract -/

theorem sumSq_nonneg (r : List ℝ) : 0 ≤ sumSq r := by
  unfold sumSq
  apply List.sum_nonneg
  intro x hx
  rcases List.mem_map.mp hx with ⟨y, _, rfl⟩
  positivity

theorem sumSq_eq_zero_iff (r : List ℝ) : sumSq r = 0 ↔ ∀ x ∈ r, x = 0 := by
  induction r with
  | nil => simp [sumSq]
  | cons a t ih =>
    unfold sumSq at ih ⊢
    rw [List.map_cons, List.sum_cons]
    rw [add_eq_zero_iff_of_nonneg (by positivity)
      (List.sum_nonneg (fun x hx => by
        rcases List.mem_map.mp hx with ⟨y, _, rfl⟩
        positivity))]
    simp only [List.mem_cons]
    constructor
    · rintro ⟨h1, h2⟩
      intro x hx
      rcases hx with rfl | hx
      · exact pow_eq_zero_iff (by norm_num) |>.mp h1
      · exact ih.mp h2 x hx
    · intro h
      refine ⟨?_, ih.mpr (fun x hx => h x (Or.inr hx))⟩
      rw [h a (Or.inl rfl)]
      norm_num

theorem rowNorm_eq_zero_iff (r : List ℝ) : rowNorm r = 0 ↔ sumSq r = 0 := by
  unfold rowNorm
  rw [Real.sqrt_eq_zero']
  constructor
  · intro h
    exact le_antisymm h (sumSq_nonneg r)
  · intro h
    exact le_of_eq h

theorem sumSq_map_div (r : List ℝ) (n : ℝ) :
    sumSq (r.map (fun x => x / n)) = sumSq r / n ^ 2 := by
  unfold sumSq
  rw [List.map_map]
  induction r with
  | nil => simp
  | cons a t ih =>
    rw [List.map_cons, List.sum_cons, List.map_cons, List.sum_cons, ih]
    rw [add_div]
    congr 1
    simp [Function.comp, div_pow]

/-- C7: `normalize(X, norm='l2')` preserves the shape, maps every nonzero row
to a row of unit L2 norm, and maps every all-zero row to itself — with no
division-by-zero error, the operation being total. -/
theorem l2_normalization_spec (X : List (List ℝ)) :
    (l2normalize X).length = X.length ∧
    ∀ r ∈ X, (l2normalizeRow r).length = r.length ∧
      ((∃ x ∈ r, x ≠ 0) → rowNorm (l2normalizeRow r) = 1) ∧
      ((∀ x ∈ r, x = 0) → l2normalizeRow r = r) := by
  refine ⟨by simp [l2normalize], ?_⟩
  intro r _
  refine ⟨by simp [l2normalizeRow], ?_, ?_⟩
  · intro hex
    have hs0 : sumSq r ≠ 0 := by
      rw [Ne, sumSq_eq_zero_iff]
      intro hall
      rcases hex with ⟨x, hx, hxne⟩
      exact hxne (hall x hx)
    have hn0 : rowNorm r ≠ 0 := fun hc => hs0 ((rowNorm_eq_zero_iff r).mp hc)
    have hsafe : safeNorm r = rowNorm r := if_neg hn0
    unfold l2normalizeRow rowNorm
    rw [hsafe, sumSq_map_div]
    rw [show rowNorm r ^ 2 = sumSq r from Real.sq_sqrt (sumSq_nonneg r)]
    rw [div_self hs0, Real.sqrt_one]
  · intro hall
    have hs0 : sumSq r = 0 := (sumSq_eq_zero_iff r).mpr hall
    have hn0 : rowNorm r = 0 := (rowNorm_eq_zero_iff r).mpr hs0
    have hsafe : safeNorm r = 1 := if_pos hn0
    unfold l2normalizeRow
    rw [hsafe]
    simp

/-- Witness for `l2_normalization_spec` at `[[3, 4], [0, 0]]`. -/
theorem l2_normalization_spec_witness :
    (l2normalize [[(3 : ℝ), 4], [0, 0]]).length = 2 ∧
    rowNorm (l2normalizeRow [(3 : ℝ), 4]) = 1 ∧
    l2normalizeRow [(0 : ℝ), 0] = [0, 0] := by
  refine ⟨(l2_normalization_spec [[(3 : ℝ), 4], [0, 0]]).1, ?_, ?_⟩
  · exact ((l2_normalization_spec [[(3 : ℝ), 4], [0, 0]]).2 [(3 : ℝ), 4]
      (by simp)).2.1 ⟨3, by simp, by norm_num⟩
  · refine ((l2_normalization_spec [[(3 : ℝ), 4], [0, 0]]).2 [(0 : ℝ), 0]
      (by simp)).2.2 ?_
    intro x hx
    rcases List.mem_cons.mp hx with h1 | h2
    · exact h1
    · simpa using h2

/-! ### The centroid-based objective

The repository delegates centroid-based clustering to `sklearn`
(`clusterer.py` lines 231-245), whose optimizer is not repository code.  The
spec fixes its contract: "minimize total within-cluster sum of squared
distances to centroid (the inertia)".  The definitions below model that
objective exactly: an assignment of `n` points to `k` clusters, the centroid
of each cluster, and the minimal achievable inertia over all assignments. -/

/-- Squared Euclidean distance between two `d`-dimensional points. -/
noncomputable def dist2 {d : Nat} (x y : Fin d → ℝ) : ℝ :=
  ∑ j, (x j - y j) ^ 2

/-- The mean vector of the points indexed by `S`. -/
noncomputable def centroid {n d : Nat} (pts : Fin n → Fin d → ℝ)
    (S : Finset (Fin n)) : Fin d → ℝ :=
  fun j => (∑ i in S, pts i j) / S.card

/-- The members of cluster `l` under assignment `c`. -/
def clusterOf {n k : Nat} (c : Fin n → Fin k) (l : Fin k) : Finset (Fin n) :=
  Finset.univ.filter (fun i => c i = l)

/-- Total within-cluster sum of squared distances to centroid. -/
noncomputable def inertia {n d k : Nat} (pts : Fin n → Fin d → ℝ)
    (c : Fin n → Fin k) : ℝ :=
  ∑ i, dist2 (pts i) (centroid pts (clusterOf c (c i)))

open Classical in
/-- Modelled from the spec: the inertia reported by the centroid-based
operation with parameter `k` — the minimum of `inertia` over all assignments
of the points into `k` clusters. -/
noncomputable def optInertia {n d : Nat} (pts : Fin n → Fin d → ℝ) (k : Nat) : ℝ :=
  if h : Nonempty (Fin n → Fin k) then
    Finset.univ.inf' (Finset.univ_nonempty_iff.mpr h) (inertia pts)
  else 0

/-- Sum of squared distances from the points of `S` to a center `z`. -/
noncomputable def clusterSS {n d : Nat} (pts : Fin n → Fin d → ℝ)
    (S : Finset (Fin n)) (z : Fin d → ℝ) : ℝ :=
  ∑ i in S, dist2 (pts i) z

/-- Within-cluster sum of squares about the cluster's own centroid. -/
noncomputable def WCSS {n d : Nat} (pts : Fin n → Fin d → ℝ)
    (S : Finset (Fin n)) : ℝ :=
  clusterSS pts S (centroid pts S)

theorem dist2_nonneg {d : Nat} (x y : Fin d → ℝ) : 0 ≤ dist2 x y := by
  unfold dist2
  exact Finset.sum_nonneg fun j _ => sq_nonneg _

theorem dist2_self {d : Nat} (x : Fin d → ℝ) : dist2 x x = 0 := by
  simp [dist2]

theorem dist2_pos_of_ne {d : Nat} {x y : Fin d → ℝ} (h : x ≠ y) : 0 < dist2 x y := by
  obtain ⟨j, hj⟩ := Function.ne_iff.mp h
  unfold dist2
  apply Finset.sum_pos' (fun i _ => sq_nonneg _)
  refine ⟨j, Finset.mem_univ j, ?_⟩
  have hsub : x j - y j ≠ 0 := sub_ne_zero.mpr hj
  exact lt_of_le_of_ne (sq_nonneg _) (Ne.symm (pow_ne_zero 2 hsub))

/-- One-dimensional bias-variance decomposition: the sum of squared
deviations about an arbitrary center exceeds the one about the mean by
`card * (mean - center)^2`. -/
theorem sum_sq_dev {ι : Type} (s : Finset ι) (hs : s.Nonempty) (f : ι → ℝ) (z : ℝ) :
    ∑ i in s, (f i - z) ^ 2
      = ∑ i in s, (f i - (∑ i in s, f i) / s.card) ^ 2
        + s.card * ((∑ i in s, f i) / s.card - z) ^ 2 := by
  set m := (∑ i in s, f i) / s.card with hm
  have hcard : (s.card : ℝ) ≠ 0 := by
    have h0 := Finset.card_pos.mpr hs
    exact_mod_cast h0.ne'
  have hsum : ∑ i in s, (f i - m) = 0 := by
    rw [Finset.sum_sub_distrib, Finset.sum_const, nsmul_eq_mul, hm]
    field_simp
  calc ∑ i in s, (f i - z) ^ 2
      = ∑ i in s, ((f i - m) ^ 2 + 2 * (m - z) * (f i - m) + (m - z) ^ 2) :=
        Finset.sum_congr rfl (fun i _ => by ring)
    _ = (∑ i in s, (f i - m) ^ 2) + (2 * (m - z)) * (∑ i in s, (f i - m))
        + s.card * (m - z) ^ 2 := by
        rw [Finset.sum_add_distrib, Finset.sum_add_distrib, ← Finset.mul_sum,
          Finset.sum_const, nsmul_eq_mul]
    _ = (∑ i in s, (f i - m) ^ 2) + s.card * (m - z) ^ 2 := by
        rw [hsum]
        ring

/-- Multi-dimensional bias-variance decomposition. -/
theorem clusterSS_decomp {n d : Nat} (pts : Fin n → Fin d → ℝ)
    (S : Finset (Fin n)) (hS : S.Nonempty) (z : Fin d → ℝ) :
    clusterSS pts S z = WCSS pts S + S.card * dist2 (centroid pts S) z := by
  unfold WCSS clusterSS dist2 centroid
  rw [Finset.sum_comm, Finset.sum_comm (s := S), Finset.mul_sum, ← Finset.sum_add_distrib]
  apply Finset.sum_congr rfl
  intro j _
  exact sum_sq_dev S hS (fun i => pts i j) (z j)

/-- The centroid minimizes the within-cluster sum of squares. -/
theorem WCSS_le_clusterSS {n d : Nat} (pts : Fin n → Fin d → ℝ)
    (S : Finset (Fin n)) (hS : S.Nonempty) (z : Fin d → ℝ) :
    WCSS pts S ≤ clusterSS pts S z := by
  rw [clusterSS_decomp pts S hS z]
  have h0 : 0 ≤ (S.card : ℝ) * dist2 (centroid pts S) z :=
    mul_nonneg (Nat.cast_nonneg _) (dist2_nonneg _ _)
  linarith

/-- Removing a point that differs from the centroid strictly decreases the
within-cluster sum of squares. -/
theorem WCSS_erase_lt {n d : Nat} (pts : Fin n → Fin d → ℝ)
    (S : Finset (Fin n)) (p : Fin n) (hp : p ∈ S)
    (hpne : pts p ≠ centroid pts S) (hne : (S.erase p).Nonempty) :
    WCSS pts (S.erase p) < WCSS pts S := by
  have h1 : WCSS pts (S.erase p) ≤ clusterSS pts (S.erase p) (centroid pts S) :=
    WCSS_le_clusterSS pts (S.erase p) hne _
  have h2 : clusterSS pts (S.erase p) (centroid pts S) + dist2 (pts p) (centroid pts S)
      = clusterSS pts S (centroid pts S) := by
    unfold clusterSS
    exact Finset.sum_erase_add S _ hp
  have h3 : 0 < dist2 (pts p) (centroid pts S) := dist2_pos_of_ne hpne
  have h4 : WCSS pts S = clusterSS pts S (centroid pts S) := rfl
  linarith

theorem WCSS_singleton {n d : Nat} (pts : Fin n → Fin d → ℝ) (p : Fin n) :
    WCSS pts {p} = 0 := by
  unfold WCSS clusterSS centroid
  rw [Finset.sum_singleton]
  have : (fun j => (∑ i in ({p} : Finset (Fin n)), pts i j) / ({p} : Finset (Fin n)).card)
      = pts p := by
    funext j
    rw [Finset.sum_singleton, Finset.card_singleton]
    simp
  rw [this]
  exact dist2_self _

/-- Inertia grouped by cluster. -/
theorem inertia_eq_sum_WCSS {n d k : Nat} (pts : Fin n → Fin d → ℝ)
    (c : Fin n → Fin k) :
    inertia pts c = ∑ l, WCSS pts (clusterOf c l) := by
  unfold inertia WCSS clusterSS
  rw [← Finset.sum_fiberwise Finset.univ c
    (fun i => dist2 (pts i) (centroid pts (clusterOf c (c i))))]
  apply Finset.sum_congr rfl
  intro l _
  apply Finset.sum_congr rfl
  intro i hi
  have hci : c i = l := (Finset.mem_filter.mp hi).2
  rw [hci]

/-- Move point `p` into a fresh `(k+1)`-th cluster. -/
def splitAssign {n k : Nat} (c : Fin n → Fin k) (p : Fin n) : Fin n → Fin (k + 1) :=
  fun i => if i = p then Fin.last k else (c i).castSucc

theorem clusterOf_splitAssign_last {n k : Nat} (c : Fin n → Fin k) (p : Fin n) :
    clusterOf (splitAssign c p) (Fin.last k) = {p} := by
  ext i
  simp only [clusterOf, splitAssign, Finset.mem_filter, Finset.mem_univ, true_and,
    Finset.mem_singleton]
  by_cases hip : i = p
  · simp [hip]
  · simp only [hip, if_false, iff_false]
    exact fun hc => (Fin.castSucc_lt_last (c i)).ne hc

theorem clusterOf_splitAssign_castSucc {n k : Nat} (c : Fin n → Fin k) (p : Fin n)
    (l : Fin k) :
    clusterOf (splitAssign c p) l.castSucc = (clusterOf c l).erase p := by
  ext i
  simp only [clusterOf, splitAssign, Finset.mem_filter, Finset.mem_univ, true_and,
    Finset.mem_erase]
  by_cases hip : i = p
  · simp only [hip, if_true, ne_eq, not_true_eq_false, false_and, iff_false]
    exact fun hc => (Fin.castSucc_lt_last l).ne' hc
  · simp only [hip, if_false, ne_eq, not_false_eq_true, true_and]
    exact ⟨fun hc => (Fin.castSucc_inj.mp hc), fun hc => by rw [hc]⟩

/-- Splitting a point away from a cluster it does not center strictly
improves the inertia. -/
theorem inertia_splitAssign_lt {n d k : Nat} (pts : Fin n → Fin d → ℝ)
    (c : Fin n → Fin k) (p : Fin n)
    (hpne : pts p ≠ centroid pts (clusterOf c (c p)))
    (hq : ∃ q ∈ clusterOf c (c p), q ≠ p) :
    inertia pts (splitAssign c p) < inertia pts c := by
  rw [inertia_eq_sum_WCSS, inertia_eq_sum_WCSS, Fin.sum_univ_castSucc,
    clusterOf_splitAssign_last, WCSS_singleton, add_zero]
  apply Finset.sum_lt_sum
  · intro l _
    rw [clusterOf_splitAssign_castSucc]
    by_cases hl : l = c p
    · subst hl
      apply le_of_lt
      apply WCSS_erase_lt pts _ p (by simp [clusterOf]) hpne
      obtain ⟨q, hqmem, hqp⟩ := hq
      exact ⟨q, Finset.mem_erase.mpr ⟨hqp, hqmem⟩⟩
    · have hnp : p ∉ clusterOf c l := by
        simp only [clusterOf, Finset.mem_filter, Finset.mem_univ, true_and]
        exact fun hc => hl hc.symm
      rw [Finset.erase_eq_of_not_mem hnp]
  · refine ⟨c p, Finset.mem_univ _, ?_⟩
    rw [clusterOf_splitAssign_castSucc]
    apply WCSS_erase_lt pts _ p (by simp [clusterOf]) hpne
    obtain ⟨q, hqmem, hqp⟩ := hq
    exact ⟨q, Finset.mem_erase.mpr ⟨hqp, hqmem⟩⟩

/-- C9: under the spec's objective, inertia is non-increasing in `k`, and on
an input with at least three pairwise-distinct points the optimum with
`k = 3` is strictly below the optimum with `k = 2`. -/
theorem kmeans_inertia_monotone {n d : Nat} (pts : Fin n → Fin d → ℝ) :
    (∀ k : Nat, 1 ≤ k → optInertia pts (k + 1) ≤ optInertia pts k) ∧
    ((∃ i1 i2 i3 : Fin n, pts i1 ≠ pts i2 ∧ pts i1 ≠ pts i3 ∧ pts i2 ≠ pts i3) →
      optInertia pts 3 < optInertia pts 2) := by
  constructor
  · intro k hk
    have hnek : Nonempty (Fin n → Fin k) := ⟨fun _ => ⟨0, hk⟩⟩
    have hnek1 : Nonempty (Fin n → Fin (k + 1)) := ⟨fun _ => ⟨0, Nat.succ_pos k⟩⟩
    unfold optInertia
    rw [dif_pos hnek1, dif_pos hnek, Finset.le_inf'_iff]
    intro c _
    have hle : Finset.univ.inf' (Finset.univ_nonempty_iff.mpr hnek1) (inertia pts)
        ≤ inertia pts (fun i => (c i).castSucc) :=
      Finset.inf'_le _ (Finset.mem_univ _)
    have heq : inertia pts (fun i => (c i).castSucc) = inertia pts c := by
      unfold inertia
      apply Finset.sum_congr rfl
      intro i _
      have hcl : clusterOf (fun i => (c i).castSucc) ((c i).castSucc) = clusterOf c (c i) := by
        ext x
        simp [clusterOf, Fin.castSucc_inj]
      rw [hcl]
    rw [heq] at hle
    exact hle
  · rintro ⟨i1, i2, i3, h12, h13, h23⟩
    have hne2 : Nonempty (Fin n → Fin 2) := ⟨fun _ => 0⟩
    have hne3 : Nonempty (Fin n → Fin 3) := ⟨fun _ => 0⟩
    unfold optInertia
    rw [dif_pos hne3, dif_pos hne2, Finset.lt_inf'_iff]
    intro c _
    have hpigeon : ∃ a b : Fin n, pts a ≠ pts b ∧ c a = c b := by
      have hv1 := (c i1).isLt
      have hv2 := (c i2).isLt
      have hv3 := (c i3).isLt
      have hcases : c i1 = c i2 ∨ c i1 = c i3 ∨ c i2 = c i3 := by
        rw [Fin.ext_iff, Fin.ext_iff, Fin.ext_iff]
        omega
      rcases hcases with h | h | h
      · exact ⟨i1, i2, h12, h⟩
      · exact ⟨i1, i3, h13, h⟩
      · exact ⟨i2, i3, h23, h⟩
    obtain ⟨a, b, hab, hcab⟩ := hpigeon
    have haS : a ∈ clusterOf c (c a) := by simp [clusterOf]
    have hbS : b ∈ clusterOf c (c a) := by simp [clusterOf, hcab.symm]
    have hpick : ∃ p, (pts p ≠ centroid pts (clusterOf c (c p)) ∧
        ∃ q ∈ clusterOf c (c p), q ≠ p) := by
      by_cases hac : pts a = centroid pts (clusterOf c (c a))
      · refine ⟨b, ?_, ⟨a, ?_, fun he => hab (congrArg pts he.symm).symm⟩⟩
        · have hcb : c b = c a := hcab.symm
          rw [hcb]
          intro hc2
          exact hab (hac.trans hc2.symm)
        · rw [hcab.symm]
          exact haS
      · exact ⟨a, hac, ⟨b, hbS, fun he => hab (congrArg pts he).symm⟩⟩
    obtain ⟨p, hpne, hq⟩ := hpick
    have hsplit := inertia_splitAssign_lt pts c p hpne hq
    have hle : Finset.univ.inf' (Finset.univ_nonempty_iff.mpr hne3) (inertia pts)
        ≤ inertia pts (splitAssign c p) :=
      Finset.inf'_le _ (Finset.mem_univ _)
    exact lt_of_le_of_lt hle hsplit

/-- Witness for `kmeans_inertia_monotone` on three collinear points. -/
theorem kmeans_inertia_monotone_witness :
    optInertia (fun (i : Fin 3) (_ : Fin 1) => (i.val : ℝ)) 2
        ≤ optInertia (fun (i : Fin 3) (_ : Fin 1) => (i.val : ℝ)) 1 ∧
    optInertia (fun (i : Fin 3) (_ : Fin 1) => (i.val : ℝ)) 3
        < optInertia (fun (i : Fin 3) (_ : Fin 1) => (i.val : ℝ)) 2 := by
  constructor
  · exact (kmeans_inertia_monotone (fun (i : Fin 3) (_ : Fin 1) => (i.val : ℝ))).1 1
      (le_refl 1)
  · apply (kmeans_inertia_monotone (fun (i : Fin 3) (_ : Fin 1) => (i.val : ℝ))).2
    refine ⟨0, 1, 2, ?_, ?_, ?_⟩
    · intro h
      have h0 := congrFun h 0
      simp at h0
    · intro h
      have h0 := congrFun h 0
      simp at h0
    · intro h
      have h0 := congrFun h 0
      simp at h0

end Discredit
